import Mathlib

/-!
Verification of the dxvk-cache-tool state-cache codec.

The Rust sources are shallowly embedded: byte streams are `List Nat`
(each element one byte, 0..255), readers are state-passing functions
returning `Except` values plus the unconsumed rest of the stream, and a
Rust panic (numeric underflow, failed assert) is modelled as the `none`
case of an outer `Option`.
-/

namespace ByteOps

/-- Little-endian value of a byte list (low byte first). -/
def leVal : List Nat → Nat
  | [] => 0
  | b :: rest => b + 256 * leVal rest

/-- Four little-endian bytes of a 32-bit value. -/
def u32le (n : Nat) : List Nat :=
  [n % 256, n / 256 % 256, n / 65536 % 256, n / 16777216 % 256]

/-- Three little-endian bytes of a 24-bit value. -/
def u24le (n : Nat) : List Nat :=
  [n % 256, n / 256 % 256, n / 65536 % 256]

end ByteOps

namespace Sha1

/-!
Modelled from the spec: the digest function `D` is SHA-1, provided to the
program by the external `sha1` crate, which is not part of `src/`.
The spec fixes `D = SHA-1` and gives two reference digests
(`SHA1_EMPTY` and the digest of "hello") that are proved below.
-/

def mask32 : Nat := 4294967295

/-- Rotate a 32-bit word left by `k` bits. -/
def rotl (k n : Nat) : Nat := ((n <<< k) ||| (n >>> (32 - k))) &&& mask32

/-- Big-endian 32-bit words of a byte list (length a multiple of 4). -/
def toWords : List Nat → List Nat
  | a :: b :: c :: d :: rest => (((a * 256 + b) * 256 + c) * 256 + d) :: toWords rest
  | _ => []

/-- Message-schedule extension: prepend `n` further words to the reversed
word list `ws` (`ws` holds the most recent word first). -/
def sched : Nat → List Nat → List Nat
  | 0, ws => ws
  | n + 1, ws =>
    sched n ((rotl 1 ((ws.getD 2 0) ^^^ (ws.getD 7 0) ^^^ (ws.getD 13 0) ^^^ (ws.getD 15 0))) :: ws)

/-- The 80 compression rounds, consuming the schedule words in order. -/
def rounds : Nat → List Nat → Nat → Nat → Nat → Nat → Nat → Nat × Nat × Nat × Nat × Nat
  | _, [], a, b, c, d, e => (a, b, c, d, e)
  | i, w :: ws, a, b, c, d, e =>
    let f :=
      if i < 20 then (b &&& c) ||| ((b ^^^ mask32) &&& d)
      else if i < 40 then b ^^^ c ^^^ d
      else if i < 60 then (b &&& c) ||| (b &&& d) ||| (c &&& d)
      else b ^^^ c ^^^ d
    let k :=
      if i < 20 then 1518500249
      else if i < 40 then 1859775393
      else if i < 60 then 2400959708
      else 3395469782
    let t := (rotl 5 a + f + e + k + w) &&& mask32
    rounds (i + 1) ws t a (rotl 30 b) c d

/-- Compress one 64-byte chunk into the running state. -/
def processBlock (h : Nat × Nat × Nat × Nat × Nat) (chunk : List Nat) :
    Nat × Nat × Nat × Nat × Nat :=
  let ws := (sched 64 (toWords chunk).reverse).reverse
  let (h0, h1, h2, h3, h4) := h
  let (a, b, c, d, e) := rounds 0 ws h0 h1 h2 h3 h4
  ((h0 + a) &&& mask32, (h1 + b) &&& mask32, (h2 + c) &&& mask32,
   (h3 + d) &&& mask32, (h4 + e) &&& mask32)

/-- Compress `n` consecutive 64-byte chunks. -/
def processChunks : Nat → List Nat → Nat × Nat × Nat × Nat × Nat → Nat × Nat × Nat × Nat × Nat
  | 0, _, h => h
  | n + 1, bytes, h => processChunks n (bytes.drop 64) (processBlock h (bytes.take 64))

/-- Big-endian 8-byte length field. -/
def be64 (n : Nat) : List Nat :=
  [(n >>> 56) &&& 255, (n >>> 48) &&& 255, (n >>> 40) &&& 255, (n >>> 32) &&& 255,
   (n >>> 24) &&& 255, (n >>> 16) &&& 255, (n >>> 8) &&& 255, n &&& 255]

/-- SHA-1 padding: a 0x80 byte, zeros to 56 mod 64, then the bit length. -/
def pad (msg : List Nat) : List Nat :=
  let len := msg.length
  msg ++ 128 :: (List.replicate ((120 - ((len + 1) % 64)) % 64) 0 ++ be64 (len * 8))

/-- Big-endian bytes of one 32-bit word. -/
def wordBE (n : Nat) : List Nat :=
  [(n >>> 24) &&& 255, (n >>> 16) &&& 255, (n >>> 8) &&& 255, n &&& 255]

/-- SHA-1 digest (20 bytes) of a byte list. -/
def sha1 (msg : List Nat) : List Nat :=
  let padded := pad msg
  let (h0, h1, h2, h3, h4) :=
    processChunks (padded.length / 64) padded
      (1732584193, 4023233417, 2562383102, 271733878, 3285377520)
  wordBE h0 ++ wordBE h1 ++ wordBE h2 ++ wordBE h3 ++ wordBE h4

end Sha1

set_option maxRecDepth 100000

/-- Decidable equality for Except results, needed to evaluate parser
outcomes on concrete inputs. -/
instance {ε α : Type} [DecidableEq ε] [DecidableEq α] : DecidableEq (Except ε α) := fun
  | .error a, .error b =>
    if h : a = b then .isTrue (by rw [h]) else .isFalse (by simp [h])
  | .error _, .ok _ => .isFalse (by simp)
  | .ok _, .error _ => .isFalse (by simp)
  | .ok a, .ok b =>
    if h : a = b then .isTrue (by rw [h]) else .isFalse (by simp [h])

/-- Kind of a std::io::Error. Reads from a pure byte stream can only fail by
running out of bytes, but the type keeps a second constructor so that the
unexpected-EOF kind is distinguishable from other I/O failures. -/
inductive IoErrorKind
  | unexpectedEof
  | otherErr
deriving DecidableEq

namespace Dxvk

/-!
Embedding of src/dxvk.rs. Byte readers take the stream as a `List Nat` and
return the parsed value together with the unconsumed rest. The external
SHA-1 digest is passed as an explicit parameter `D`; the program
instantiates it with `Sha1.sha1`.
-/

open ByteOps

def HASH_SIZE : Nat := 20

def LEGACY_VERSION : Nat := 7

def MAGIC_STRING : List Nat := [68, 88, 86, 75]

def SHA1_EMPTY : List Nat :=
  [218, 57, 163, 238, 94, 107, 75, 13, 50, 85, 191, 239, 149, 96, 24, 144, 175, 216, 7, 9]

inductive HeaderError
  | ioErr (k : IoErrorKind)
  | magicStringMismatch
  | invalidVersion
deriving DecidableEq

inductive EntryError
  | ioErr (k : IoErrorKind)
  | hashMismatch
deriving DecidableEq

inductive ReadError
  | ioErr (k : IoErrorKind)
  | readHeader (e : HeaderError)
  | readEntry (e : EntryError)
  | duplicateEntry
deriving DecidableEq

inductive DxvkStateCacheEdition
  | standard
  | legacy
deriving DecidableEq

/-- File header; `version` is a `NonZeroU32` in the source, the nonzero
requirement is enforced by the decoder. -/
structure DxvkStateCacheHeader where
  magic : List Nat
  version : Nat
  entry_size : Nat
deriving DecidableEq

def DxvkStateCacheHeader.edition (h : DxvkStateCacheHeader) : DxvkStateCacheEdition :=
  if h.version > LEGACY_VERSION then .standard else .legacy

/-- Header encoder. Note: the source writes the constant `MAGIC_STRING`,
not the magic field of the value being written. `NativeEndian` equals
little-endian on the supported targets. -/
def DxvkStateCacheHeader.write_to (h : DxvkStateCacheHeader) : List Nat :=
  MAGIC_STRING ++ u32le h.version ++ u32le h.entry_size

/-- Model of std::io::Read::read_exact on a pure byte stream. -/
def readExact (n : Nat) (s : List Nat) : Except IoErrorKind (List Nat × List Nat) :=
  if n ≤ s.length then .ok (s.take n, s.drop n) else .error .unexpectedEof

/-- byteorder ReadBytesExt::read_u8 (read_exact of one byte). -/
def readU8 (s : List Nat) : Except IoErrorKind (Nat × List Nat) :=
  (readExact 1 s).map fun p => (leVal p.1, p.2)

/-- byteorder ReadBytesExt::read_u24 (three bytes, low byte first). -/
def readU24 (s : List Nat) : Except IoErrorKind (Nat × List Nat) :=
  (readExact 3 s).map fun p => (leVal p.1, p.2)

/-- byteorder ReadBytesExt::read_u32 (four bytes, low byte first). -/
def readU32 (s : List Nat) : Except IoErrorKind (Nat × List Nat) :=
  (readExact 4 s).map fun p => (leVal p.1, p.2)

/-- DxvkStateCacheHeader::from_reader: read and check the magic, read the
version and reject zero (the NonZeroU32 constructor), read entry_size. -/
def headerFromReader (s : List Nat) :
    Except HeaderError (DxvkStateCacheHeader × List Nat) :=
  match readExact 4 s with
  | .error k => .error (.ioErr k)
  | .ok (magic, s1) =>
    if magic ≠ MAGIC_STRING then .error .magicStringMismatch
    else
      match readU32 s1 with
      | .error k => .error (.ioErr k)
      | .ok (v, s2) =>
        if v = 0 then .error .invalidVersion
        else
          match readU32 s2 with
          | .error k => .error (.ioErr k)
          | .ok (es, s3) => .ok ({ magic := magic, version := v, entry_size := es }, s3)

structure DxvkStateCacheEntryHeader where
  stage_mask : Nat
  entry_size : Nat
deriving DecidableEq

/-- DxvkStateCacheEntryHeader::from_reader: one stage-mask byte and a
24-bit entry size. -/
def entryHeaderFromReader (s : List Nat) :
    Except IoErrorKind (DxvkStateCacheEntryHeader × List Nat) :=
  match readU8 s with
  | .error k => .error k
  | .ok (sm, s1) =>
    match readU24 s1 with
    | .error k => .error k
    | .ok (esz, s2) => .ok ({ stage_mask := sm, entry_size := esz }, s2)

/-- DxvkStateCacheEntryHeader::write_to; byteorder write_u24 asserts that
the value fits in 24 bits and panics otherwise (`none`). -/
def DxvkStateCacheEntryHeader.write_to (h : DxvkStateCacheEntryHeader) : Option (List Nat) :=
  if h.entry_size < 16777216 then some (h.stage_mask :: u24le h.entry_size) else none

structure DxvkStateCacheEntry where
  header : Option DxvkStateCacheEntryHeader
  hash : List Nat
  data : List Nat
deriving DecidableEq

/-- DxvkStateCacheEntry::is_valid: digest of the payload, with the
SHA1_EMPTY sentinel appended when the entry has no per-entry header,
compared against the stored hash. -/
def DxvkStateCacheEntry.is_valid (D : List Nat → List Nat) (e : DxvkStateCacheEntry) : Bool :=
  D (e.data ++ if e.header.isNone then SHA1_EMPTY else []) == e.hash

/-- DxvkStateCacheEntry::with_length builds the data buffer with
`vec![0; length - HASH_SIZE]`; the subtraction is on usize, so
`length < HASH_SIZE` panics (debug: overflow; release: capacity overflow
in vec![]). `from_reader_legacy` then fills data and hash in that order,
so `none` models the panic. -/
def entryFromReaderLegacy (size : Nat) (s : List Nat) :
    Option (Except IoErrorKind (DxvkStateCacheEntry × List Nat)) :=
  if size < HASH_SIZE then none
  else some (
    match readExact (size - HASH_SIZE) s with
    | .error k => .error k
    | .ok (data, s1) =>
      match readExact HASH_SIZE s1 with
      | .error k => .error k
      | .ok (hash, s2) => .ok ({ header := none, hash := hash, data := data }, s2))

/-- DxvkStateCacheEntry::from_reader_standard: entry header, then hash,
then a payload of the length given by the entry header. -/
def entryFromReaderStandard (s : List Nat) :
    Except IoErrorKind (DxvkStateCacheEntry × List Nat) :=
  match entryHeaderFromReader s with
  | .error k => .error k
  | .ok (h, s1) =>
    match readExact HASH_SIZE s1 with
    | .error k => .error k
    | .ok (hash, s2) =>
      match readExact h.entry_size s2 with
      | .error k => .error k
      | .ok (data, s3) => .ok ({ header := some h, hash := hash, data := data }, s3)

/-- DxvkStateCacheEntry::from_reader: parse by edition, then reject the
entry with a hash mismatch unless is_valid holds. -/
def entryFromReader (D : List Nat → List Nat) (top : DxvkStateCacheHeader) (s : List Nat) :
    Option (Except EntryError (DxvkStateCacheEntry × List Nat)) :=
  let parsed : Option (Except IoErrorKind (DxvkStateCacheEntry × List Nat)) :=
    match top.edition with
    | .standard => some (entryFromReaderStandard s)
    | .legacy => entryFromReaderLegacy top.entry_size s
  parsed.map fun r =>
    match r with
    | .error k => .error (EntryError.ioErr k)
    | .ok (e, rest) =>
      if e.is_valid D then .ok (e, rest) else .error .hashMismatch

/-- DxvkStateCacheEntry::write_legacy. Note the order: the source writes
the hash first and the data second. -/
def writeLegacy (e : DxvkStateCacheEntry) : List Nat :=
  e.hash ++ e.data

/-- DxvkStateCacheEntry::write_standard: the optional entry header (whose
24-bit write can panic, `none`), then hash, then data. -/
def writeStandard (e : DxvkStateCacheEntry) : Option (List Nat) :=
  match e.header with
  | some h => h.write_to.map fun hb => hb ++ e.hash ++ e.data
  | none => some (e.hash ++ e.data)

/-- DxvkStateCacheEntry::write_to. -/
def DxvkStateCacheEntry.write_to (e : DxvkStateCacheEntry) (ed : DxvkStateCacheEdition) :
    Option (List Nat) :=
  match ed with
  | .legacy => some (writeLegacy e)
  | .standard => writeStandard e

/-- In-memory cache. The source stores the entries in a
std::collections::HashSet of EntryWrapper; the list here records the
set contents in insertion order. EntryWrapper equality compares the
stored 20-byte hash, so set membership is membership by hash. (The Rust
iteration order of the HashSet itself is unspecified; see C3.) -/
structure DxvkStateCache where
  header : DxvkStateCacheHeader
  entries : List DxvkStateCacheEntry
deriving DecidableEq

/-- HashSet::insert through the EntryWrapper equality: returns the set
unchanged and false when an entry with the same hash is present,
otherwise adds the entry and returns true. -/
def insertEntry (acc : List DxvkStateCacheEntry) (e : DxvkStateCacheEntry) :
    List DxvkStateCacheEntry × Bool :=
  if acc.any fun a => a.hash == e.hash then (acc, false) else (acc ++ [e], true)

/-- The entry loop of DxvkStateCache::from_reader: try_read_entry maps an
unexpected-EOF I/O error (wherever it occurs inside the entry read) to
normal termination; any other entry error aborts; an inserted entry whose
hash is already present aborts with DuplicateEntry. Fuel is an upper
bound on the number of loop iterations; the caller passes more fuel than
iterations are possible (every parsed entry consumes at least 20 bytes). -/
def readEntries (D : List Nat → List Nat) (hdr : DxvkStateCacheHeader) :
    Nat → List Nat → List DxvkStateCacheEntry →
    Option (Except ReadError (List DxvkStateCacheEntry))
  | 0, _, _ => none
  | fuel + 1, s, acc =>
    match entryFromReader D hdr s with
    | none => none
    | some (.error (.ioErr .unexpectedEof)) => some (.ok acc)
    | some (.error e) => some (.error (.readEntry e))
    | some (.ok (e, rest)) =>
      match insertEntry acc e with
      | (_, false) => some (.error .duplicateEntry)
      | (acc2, true) => readEntries D hdr fuel rest acc2

/-- DxvkStateCache::from_reader: parse the header, then read entries until
the loop terminates. -/
def cacheFromReader (D : List Nat → List Nat) (s : List Nat) :
    Option (Except ReadError DxvkStateCache) :=
  match headerFromReader s with
  | .error e => some (.error (.readHeader e))
  | .ok (hdr, rest) =>
    (readEntries D hdr (rest.length + 1) rest []).map fun r =>
      r.map fun entries => { header := hdr, entries := entries }

/-- DxvkStateCache::write_to: an empty cache is an error (`none`, an
io::Error in the source), otherwise the header followed by every entry in
iteration order, written with the edition of the file header. -/
def DxvkStateCache.write_to (c : DxvkStateCache) : Option (List Nat) :=
  if c.entries.length < 1 then none
  else
    (c.entries.mapM (fun e => DxvkStateCacheEntry.write_to e c.header.edition) :
        Option (List (List Nat))).map fun bs =>
      c.header.write_to ++ bs.flatten

/-- Cache states reachable through the public container operations:
constructed empty, extended by HashSet insertions, or produced by
from_reader. -/
inductive Reachable : List DxvkStateCacheEntry → Prop
  | empty : Reachable []
  | insert (e : DxvkStateCacheEntry) {l : List DxvkStateCacheEntry} :
      Reachable l → Reachable (insertEntry l e).1
  | ofStream {D : List Nat → List Nat} {s : List Nat} {c : DxvkStateCache} :
      cacheFromReader D s = some (.ok c) → Reachable c.entries

end Dxvk

namespace Main

/-!
Embedding of src/main.rs (the merge front-end with its own copy of the
codec). Its read primitives and its duplicate handling differ from
src/dxvk.rs and are modelled separately.
-/

open ByteOps

def HASH_SIZE : Nat := 20

def MAGIC_STRING : List Nat := [68, 88, 86, 75]

def SHA1_EMPTY : List Nat :=
  [218, 57, 163, 238, 94, 107, 75, 13, 50, 85, 191, 239, 149, 96, 24, 144, 175, 216, 7, 9]

inductive ErrorKind
  | ioError
  | invalidInput
  | invalidData
deriving DecidableEq

/-- AppError; the human-readable message is not modelled. -/
structure AppError where
  kind : ErrorKind
deriving DecidableEq

structure DxvkStateCacheHeader where
  magic : List Nat
  version : Nat
  entry_size : Nat
deriving DecidableEq

/-- Entry header; stage_mask is widened to u32 in main.rs. -/
structure DxvkStateCacheEntryHeader where
  stage_mask : Nat
  entry_size : Nat
deriving DecidableEq

structure DxvkStateCacheEntry where
  header : Option DxvkStateCacheEntryHeader
  hash : List Nat
  data : List Nat
deriving DecidableEq

/-- ReadEx::read_u32: one Read::read call into a zero-initialised 4-byte
buffer whose contents are used regardless of how many bytes arrived, so
missing bytes stay zero and the primitive never reports EOF. -/
def readU32 (s : List Nat) : Except AppError (Nat × List Nat) :=
  .ok (leVal (s.take 4), s.drop 4)

/-- ReadEx::read_u24 (same zero-padding behaviour). -/
def readU24 (s : List Nat) : Except AppError (Nat × List Nat) :=
  .ok (leVal (s.take 3), s.drop 3)

/-- ReadEx::read_u8 (same zero-padding behaviour). -/
def readU8 (s : List Nat) : Except AppError (Nat × List Nat) :=
  .ok (leVal (s.take 1), s.drop 1)

/-- std read_exact; the io::Error converts to AppError with kind IoError. -/
def readExact (n : Nat) (s : List Nat) : Except AppError (List Nat × List Nat) :=
  if n ≤ s.length then .ok (s.take n, s.drop n) else .error ⟨.ioError⟩

/-- read_header from main.rs: no magic or version validation here. -/
def read_header (s : List Nat) : Except AppError (DxvkStateCacheHeader × List Nat) :=
  match readExact 4 s with
  | .error e => .error e
  | .ok (magic, s1) =>
    match readU32 s1 with
    | .error e => .error e
    | .ok (v, s2) =>
      match readU32 s2 with
      | .error e => .error e
      | .ok (es, s3) => .ok ({ magic := magic, version := v, entry_size := es }, s3)

/-- read_entry (Standard layout). -/
def read_entry (s : List Nat) : Except AppError (DxvkStateCacheEntry × List Nat) :=
  match readU8 s with
  | .error e => .error e
  | .ok (sm, s1) =>
    match readU24 s1 with
    | .error e => .error e
    | .ok (esz, s2) =>
      match readExact HASH_SIZE s2 with
      | .error e => .error e
      | .ok (hash, s3) =>
        match readExact esz s3 with
        | .error e => .error e
        | .ok (data, s4) =>
          .ok ({ header := some { stage_mask := sm, entry_size := esz },
                 hash := hash, data := data }, s4)

/-- read_entry_legacy: payload then hash. -/
def read_entry_legacy (size : Nat) (s : List Nat) :
    Except AppError (DxvkStateCacheEntry × List Nat) :=
  match readExact size s with
  | .error e => .error e
  | .ok (data, s1) =>
    match readExact HASH_SIZE s1 with
    | .error e => .error e
    | .ok (hash, s2) => .ok ({ header := none, hash := hash, data := data }, s2)

/-- DxvkStateCacheEntry::is_valid from main.rs: keyed on the legacy flag
of the current file rather than on the presence of the entry header. -/
def is_valid (D : List Nat → List Nat) (legacy : Bool) (e : DxvkStateCacheEntry) : Bool :=
  D (e.data ++ if legacy then SHA1_EMPTY else []) == e.hash

abbrev LinkedMap := List (List Nat × DxvkStateCacheEntry)

/-- Result of a merge run: the version and entry_size captured from the
first file (the Config fields of main.rs) and the merged entry map in
its iteration order. -/
structure MergeOutcome where
  version : Nat
  entry_size : Nat
  entries : LinkedMap
deriving DecidableEq

/-- linked_hash_map::LinkedHashMap::insert: a fresh key is attached at the
back of the iteration order; an existing key has its value replaced and
its node detached and re-attached at the back (the update-LRU-position
step of the crate). -/
def insertLHM (m : LinkedMap) (k : List Nat) (v : DxvkStateCacheEntry) : LinkedMap :=
  (m.filter fun p => !(p.1 == k)) ++ [(k, v)]

/-- The per-file entry loop of main(): read entries with the
edition-appropriate routine; a valid entry is inserted, an invalid one is
silently dropped; any error of kind IoError ends the file normally, any
other error aborts. In legacy mode the size argument
header.entry_size - HASH_SIZE is computed (on usize) at the call site,
so entry_size < HASH_SIZE panics (`none`) before anything is read. -/
def entryLoop (D : List Nat → List Nat) (legacy : Bool) (entry_size : Nat) :
    Nat → List Nat → LinkedMap → Option (Except AppError LinkedMap)
  | 0, _, _ => none
  | fuel + 1, s, m =>
    let res : Option (Except AppError (DxvkStateCacheEntry × List Nat)) :=
      if legacy then
        if entry_size < HASH_SIZE then none
        else some (read_entry_legacy (entry_size - HASH_SIZE) s)
      else some (read_entry s)
    match res with
    | none => none
    | some (.error err) => if err.kind = .ioError then some (.ok m) else some (.error err)
    | some (.ok (e, rest)) =>
      entryLoop D legacy entry_size fuel rest
        (if is_valid D legacy e then insertLHM m e.hash e else m)

/-- One iteration of the file loop of main(): header, magic check,
version capture / comparison, then the entry loop. -/
def processFile (D : List Nat → List Nat) (version entry_size : Nat) (m : LinkedMap)
    (file : List Nat) : Option (Except AppError MergeOutcome) :=
  match read_header file with
  | .error e => some (.error e)
  | .ok (hdr, rest) =>
    if hdr.magic ≠ MAGIC_STRING then some (.error ⟨.invalidData⟩)
    else
      let v2 := if version = 0 then hdr.version else version
      let es2 := if version = 0 then hdr.entry_size else entry_size
      if hdr.version ≠ v2 then some (.error ⟨.invalidInput⟩)
      else
        let legacy := decide (hdr.version < 8)
        (entryLoop D legacy hdr.entry_size (rest.length + 1) rest m).map fun r =>
          r.map fun m2 => { version := v2, entry_size := es2, entries := m2 }

/-- Fold processFile over the input files, threading the version and
entry_size captured from the first file. -/
def mergeGo (D : List Nat → List Nat) :
    List (List Nat) → Nat → Nat → LinkedMap → Option (Except AppError MergeOutcome)
  | [], v, es, m => some (.ok { version := v, entry_size := es, entries := m })
  | f :: fs, v, es, m =>
    match processFile D v es m f with
    | none => none
    | some (.error e) => some (.error e)
    | some (.ok o) => mergeGo D fs o.version o.entry_size o.entries

/-- The merge operation of main() on already-opened input byte streams:
process every file, then fail with InvalidData when no valid entry was
found. The resulting map is written out in its iteration order. -/
def mergeFiles (D : List Nat → List Nat) (files : List (List Nat)) :
    Option (Except AppError MergeOutcome) :=
  match mergeGo D files 0 0 [] with
  | some (.ok o) =>
    if o.entries.isEmpty then some (.error ⟨.invalidData⟩) else some (.ok o)
  | r => r

/-- wrtie_header (sic) from main.rs: magic, version, entry_size. -/
def wrtie_header (version entry_size : Nat) : List Nat :=
  MAGIC_STRING ++ ByteOps.u32le version ++ ByteOps.u32le entry_size

/-- One entry as emitted by write_state_cache: the stage-mask byte and the
24-bit entry size (WriteEx keeps the low bytes), then hash, then data;
an entry without a header gets only hash and data. -/
def writeEntryStandard (e : DxvkStateCacheEntry) : List Nat :=
  match e.header with
  | some h => (h.stage_mask % 256) :: (ByteOps.u24le h.entry_size ++ (e.hash ++ e.data))
  | none => e.hash ++ e.data

/-- write_state_cache: every map entry in iteration order. -/
def write_state_cache (m : LinkedMap) : List Nat :=
  (m.map fun p => writeEntryStandard p.2).flatten

end Main

/-! ## Reference digests from the spec -/

/-- The SHA-1 digest of the empty byte string equals the SHA1_EMPTY
constant of the source. -/
theorem sha1_empty_digest : Sha1.sha1 [] = Dxvk.SHA1_EMPTY := by decide

/-- The SHA-1 digest of the bytes of "hello" matches the reference digest
given in scenario S2 of the spec. -/
theorem sha1_hello_digest :
    Sha1.sha1 [104, 101, 108, 108, 111] =
      [170, 244, 198, 29, 220, 197, 232, 162, 218, 190, 222, 15,
       59, 72, 44, 217, 174, 169, 67, 77] := by
  decide

/-! ## Helper lemmas about the dxvk.rs entry parsers -/

namespace Dxvk

theorem stdParse_header_isSome {s : List Nat} {e : DxvkStateCacheEntry} {rest : List Nat}
    (h : entryFromReaderStandard s = .ok (e, rest)) : e.header.isSome := by
  unfold entryFromReaderStandard at h
  split at h
  · exact absurd h (by simp)
  · split at h
    · exact absurd h (by simp)
    · split at h
      · exact absurd h (by simp)
      · simp only [Except.ok.injEq, Prod.mk.injEq] at h
        rw [← h.1]
        rfl

theorem legacyParse_header_none {n : Nat} {s : List Nat} {e : DxvkStateCacheEntry}
    {rest : List Nat} (h : entryFromReaderLegacy n s = some (.ok (e, rest))) :
    e.header = none := by
  unfold entryFromReaderLegacy at h
  split at h
  · exact absurd h (by simp)
  · simp only [Option.some.injEq] at h
    split at h
    · exact absurd h (by simp)
    · split at h
      · exact absurd h (by simp)
      · simp only [Except.ok.injEq, Prod.mk.injEq] at h
        rw [← h.1]

end Dxvk

/-! ## C1 -/

/-- Claim C1: an entry decoded from a stream is accepted exactly when its
stored 20-byte hash equals the edition-specific content hash (Standard:
digest of the payload; Legacy: digest of the payload followed by
SHA1_EMPTY); when the hashes differ, decoding reports the hash-mismatch
error instead of returning the entry. -/
theorem C1_entry_accepted_iff_hash_matches (D : List Nat → List Nat)
    (top : Dxvk.DxvkStateCacheHeader) (s : List Nat)
    (e : Dxvk.DxvkStateCacheEntry) (rest : List Nat) :
    (top.edition = .standard → Dxvk.entryFromReaderStandard s = .ok (e, rest) →
      ((Dxvk.entryFromReader D top s = some (.ok (e, rest)) ↔ D e.data = e.hash) ∧
       (D e.data ≠ e.hash →
         Dxvk.entryFromReader D top s = some (.error .hashMismatch)))) ∧
    (top.edition = .legacy →
      Dxvk.entryFromReaderLegacy top.entry_size s = some (.ok (e, rest)) →
      ((Dxvk.entryFromReader D top s = some (.ok (e, rest)) ↔
          D (e.data ++ Dxvk.SHA1_EMPTY) = e.hash) ∧
       (D (e.data ++ Dxvk.SHA1_EMPTY) ≠ e.hash →
          Dxvk.entryFromReader D top s = some (.error .hashMismatch)))) := by
  constructor
  · intro hed hp
    obtain ⟨h1, hh⟩ := Option.isSome_iff_exists.mp (Dxvk.stdParse_header_isSome hp)
    have hv : e.is_valid D = (D e.data == e.hash) := by
      simp [Dxvk.DxvkStateCacheEntry.is_valid, hh]
    have hcomp : Dxvk.entryFromReader D top s =
        some (if e.is_valid D then .ok (e, rest) else .error .hashMismatch) := by
      simp [Dxvk.entryFromReader, hed, hp]
    by_cases hD : D e.data = e.hash
    · have ht : e.is_valid D = true := by rw [hv]; exact beq_iff_eq.mpr hD
      rw [hcomp, ht]
      simp [hD]
    · have ht : e.is_valid D = false := by
        rw [hv]; exact beq_eq_false_iff_ne.mpr hD
      rw [hcomp, ht]
      simp [hD]
  · intro hed hp
    have hh := Dxvk.legacyParse_header_none hp
    have hv : e.is_valid D = (D (e.data ++ Dxvk.SHA1_EMPTY) == e.hash) := by
      simp [Dxvk.DxvkStateCacheEntry.is_valid, hh]
    have hcomp : Dxvk.entryFromReader D top s =
        some (if e.is_valid D then .ok (e, rest) else .error .hashMismatch) := by
      simp [Dxvk.entryFromReader, hed, hp]
    by_cases hD : D (e.data ++ Dxvk.SHA1_EMPTY) = e.hash
    · have ht : e.is_valid D = true := by rw [hv]; exact beq_iff_eq.mpr hD
      rw [hcomp, ht]
      simp [hD]
    · have ht : e.is_valid D = false := by
        rw [hv]; exact beq_eq_false_iff_ne.mpr hD
      rw [hcomp, ht]
      simp [hD]

/-- Standard header used by the C1 witness. -/
def c1top : Dxvk.DxvkStateCacheHeader :=
  { magic := Dxvk.MAGIC_STRING, version := 8, entry_size := 0 }

/-- Entry bytes for the C1 witness: stage mask 7, payload length 0, hash of
the empty payload. -/
def c1stream : List Nat := [7, 0, 0, 0] ++ Sha1.sha1 []

/-- The entry that the C1 witness stream parses to. -/
def c1entry : Dxvk.DxvkStateCacheEntry :=
  { header := some { stage_mask := 7, entry_size := 0 }, hash := Sha1.sha1 [], data := [] }

/-- Witness for C1 at a concrete standard-edition entry. -/
theorem C1_witness :
    Dxvk.entryFromReader Sha1.sha1 c1top c1stream = some (.ok (c1entry, [])) :=
  ((C1_entry_accepted_iff_hash_matches Sha1.sha1 c1top c1stream c1entry []).1
    (by decide) (by decide)).1.mpr (by decide)

/-! ## C2 -/

/-- Hash of the spec scenario S1 entry: SHA-1 of the payload followed by
the legacy sentinel, so the entry is valid for a legacy file. -/
def s1hash : List Nat := Sha1.sha1 ([0, 1, 2, 3] ++ Dxvk.SHA1_EMPTY)

/-- The legacy cache of scenario S1 of the spec: version 7, entry_size 24,
one valid entry with payload 00 01 02 03. -/
def s1cache : Dxvk.DxvkStateCache :=
  { header := { magic := Dxvk.MAGIC_STRING, version := 7, entry_size := 24 },
    entries := [{ header := none, hash := s1hash, data := [0, 1, 2, 3] }] }

/-- Claim C2 fails on the code: for the valid one-entry legacy cache of
scenario S1, encoding and then decoding does not return the cache but the
hash-mismatch error, because write_legacy emits hash-then-data while
from_reader_legacy parses data-then-hash. -/
theorem C2_legacy_roundtrip_fails :
    s1cache.write_to.bind (Dxvk.cacheFromReader Sha1.sha1) =
      some (.error (.readEntry .hashMismatch)) := by
  decide

/-! ## C4 -/

/-- A standard-edition header followed by one stray byte; EOF hits after
the first byte (the stage mask) of the would-be entry was consumed. -/
def c4stream : List Nat := [68, 88, 86, 75] ++ [8, 0, 0, 0] ++ [0, 0, 0, 0] ++ [5]

/-- Counterexample to claim C4: the unexpected EOF occurs one byte inside
a partially-read entry, yet the whole-file decode terminates successfully
with an empty cache instead of failing. -/
theorem C4_counterexample_mid_entry_eof_succeeds :
    Dxvk.cacheFromReader Sha1.sha1 c4stream =
      some (.ok { header := { magic := Dxvk.MAGIC_STRING, version := 8, entry_size := 0 },
                  entries := [] }) := by
  decide

/-- Claim C4 as amended: the whole-file decode terminates successfully
whenever the entry read fails with an unexpected-EOF I/O error, no matter
where inside the entry the EOF occurs; the entries decoded before that
point are kept. -/
theorem C4_amended_eof_anywhere_ends_cleanly (D : List Nat → List Nat)
    (hdr : Dxvk.DxvkStateCacheHeader) (fuel : Nat) (s : List Nat)
    (acc : List Dxvk.DxvkStateCacheEntry) (s0 : List Nat)
    (h : Dxvk.entryFromReader D hdr s = some (.error (.ioErr .unexpectedEof))) :
    Dxvk.readEntries D hdr (fuel + 1) s acc = some (.ok acc) ∧
    (Dxvk.headerFromReader s0 = .ok (hdr, s) →
      Dxvk.cacheFromReader D s0 = some (.ok { header := hdr, entries := [] })) := by
  have h1 : ∀ (f : Nat) (acc2 : List Dxvk.DxvkStateCacheEntry),
      Dxvk.readEntries D hdr (f + 1) s acc2 = some (.ok acc2) := by
    intro f acc2
    unfold Dxvk.readEntries
    rw [h]
  refine ⟨h1 fuel acc, fun hh => ?_⟩
  unfold Dxvk.cacheFromReader
  rw [hh]
  simp only [h1 s.length []]
  rfl

/-- Witness stream for the amended C4: a standard header followed by ten
zero bytes, so EOF hits in the middle of the hash field of the entry. -/
def c4wstream : List Nat :=
  [68, 88, 86, 75] ++ [8, 0, 0, 0] ++ [0, 0, 0, 0] ++ [0, 0, 0, 0, 0, 0, 0, 0, 0, 0]

/-- Witness for the amended C4 at a concrete truncated stream. -/
theorem C4_amended_witness :
    Dxvk.cacheFromReader Sha1.sha1 c4wstream =
      some (.ok { header := { magic := Dxvk.MAGIC_STRING, version := 8, entry_size := 0 },
                  entries := [] }) :=
  (C4_amended_eof_anywhere_ends_cleanly Sha1.sha1
      { magic := Dxvk.MAGIC_STRING, version := 8, entry_size := 0 }
      0 [0, 0, 0, 0, 0, 0, 0, 0, 0, 0] [] c4wstream (by decide)).2 (by decide)

/-! ## C5 -/

namespace Dxvk

theorem insertEntry_distinct {l : List DxvkStateCacheEntry} {e : DxvkStateCacheEntry}
    (h : l.Pairwise fun a b => a.hash ≠ b.hash) :
    (insertEntry l e).1.Pairwise fun a b => a.hash ≠ b.hash := by
  by_cases hfind : (l.any fun a => a.hash == e.hash) = true
  · simpa [insertEntry, hfind] using h
  · have hins : (insertEntry l e).1 = l ++ [e] := by simp [insertEntry, hfind]
    rw [hins, List.pairwise_append]
    refine ⟨h, List.pairwise_singleton _ _, ?_⟩
    intro a ha b hb
    simp only [List.mem_singleton] at hb
    subst hb
    intro hcontra
    exact hfind (List.any_eq_true.mpr ⟨a, ha, beq_iff_eq.mpr hcontra⟩)

theorem readEntries_ok_distinct (D : List Nat → List Nat) (hdr : DxvkStateCacheHeader)
    (fuel : Nat) :
    ∀ (s : List Nat) (acc out : List DxvkStateCacheEntry),
      readEntries D hdr fuel s acc = some (.ok out) →
      acc.Pairwise (fun a b => a.hash ≠ b.hash) →
      out.Pairwise (fun a b => a.hash ≠ b.hash) := by
  induction fuel with
  | zero =>
    intro s acc out h
    exact absurd h (by simp [readEntries])
  | succ fuel ih =>
    intro s acc out h hacc
    unfold readEntries at h
    cases hp : entryFromReader D hdr s with
    | none => rw [hp] at h; exact absurd h (by simp)
    | some r =>
      rw [hp] at h
      cases r with
      | error e =>
        cases e with
        | ioErr k =>
          cases k with
          | unexpectedEof =>
            simp only [Option.some.injEq, Except.ok.injEq] at h
            rw [← h]
            exact hacc
          | otherErr => simp only [] at h; exact absurd h (by simp)
        | hashMismatch => simp only [] at h; exact absurd h (by simp)
      | ok pr =>
        obtain ⟨e, rest⟩ := pr
        simp only [] at h
        by_cases hfind : (acc.any fun a => a.hash == e.hash) = true
        · rw [show insertEntry acc e = (acc, false) from by simp [insertEntry, hfind]] at h
          exact absurd h (by simp)
        · rw [show insertEntry acc e = (acc ++ [e], true) from by simp [insertEntry, hfind]] at h
          refine ih rest (acc ++ [e]) out h ?_
          rw [List.pairwise_append]
          refine ⟨hacc, List.pairwise_singleton _ _, ?_⟩
          intro a ha b hb
          simp only [List.mem_singleton] at hb
          subst hb
          intro hcontra
          exact hfind (List.any_eq_true.mpr ⟨a, ha, beq_iff_eq.mpr hcontra⟩)

end Dxvk

/-- Claim C5: every reachable cache state (constructed empty and extended
by insertions, or produced by decoding a stream) stores no two entries
with the same 20-byte hash field. -/
theorem C5_reachable_no_duplicate_hashes {l : List Dxvk.DxvkStateCacheEntry}
    (h : Dxvk.Reachable l) : l.Pairwise fun a b => a.hash ≠ b.hash := by
  induction h with
  | empty => exact List.Pairwise.nil
  | insert e _ ih => exact Dxvk.insertEntry_distinct ih
  | ofStream hr =>
    rename_i D s c
    unfold Dxvk.cacheFromReader at hr
    cases hh : Dxvk.headerFromReader s with
    | error e => rw [hh] at hr; exact absurd hr (by simp)
    | ok p =>
      obtain ⟨hdr, rest⟩ := p
      rw [hh] at hr
      simp only [] at hr
      cases hre : Dxvk.readEntries D hdr (rest.length + 1) rest [] with
      | none => rw [hre] at hr; exact absurd hr (by simp)
      | some r =>
        rw [hre] at hr
        cases r with
        | error e => exact absurd hr (by simp [Except.map])
        | ok entries =>
          simp only [Option.map_some', Except.map, Option.some.injEq,
            Except.ok.injEq] at hr
          rw [← hr]
          exact Dxvk.readEntries_ok_distinct D hdr (rest.length + 1) rest [] entries hre
            List.Pairwise.nil

/-- Entry used by the C5 witness. -/
def c5entry : Dxvk.DxvkStateCacheEntry :=
  { header := none, hash := List.replicate 20 0, data := [] }

/-- Witness for C5: a cache reached by one insertion into the empty
container has pairwise-distinct hashes. -/
theorem C5_witness :
    ([c5entry] : List Dxvk.DxvkStateCacheEntry).Pairwise (fun a b => a.hash ≠ b.hash) :=
  C5_reachable_no_duplicate_hashes
    (show Dxvk.Reachable [c5entry] from Dxvk.Reachable.insert c5entry Dxvk.Reachable.empty)

/-! ## C6 -/

namespace Dxvk

theorem readExact_ok_len {n : Nat} {s l rest : List Nat}
    (h : readExact n s = .ok (l, rest)) : rest.length + n = s.length := by
  unfold readExact at h
  split at h
  · next hle =>
    simp only [Except.ok.injEq, Prod.mk.injEq] at h
    rw [← h.2]
    simp
    omega
  · exact absurd h (by simp)

theorem readU8_ok_len {s : List Nat} {v : Nat} {rest : List Nat}
    (h : readU8 s = .ok (v, rest)) : rest.length + 1 = s.length := by
  unfold readU8 at h
  cases hx : readExact 1 s with
  | error k => rw [hx] at h; exact absurd h (by simp [Except.map])
  | ok p =>
    rw [hx] at h
    simp only [Except.map, Except.ok.injEq, Prod.mk.injEq] at h
    rw [← h.2]
    exact readExact_ok_len hx

theorem readU24_ok_len {s : List Nat} {v : Nat} {rest : List Nat}
    (h : readU24 s = .ok (v, rest)) : rest.length + 3 = s.length := by
  unfold readU24 at h
  cases hx : readExact 3 s with
  | error k => rw [hx] at h; exact absurd h (by simp [Except.map])
  | ok p =>
    rw [hx] at h
    simp only [Except.map, Except.ok.injEq, Prod.mk.injEq] at h
    rw [← h.2]
    exact readExact_ok_len hx

theorem entryHeader_ok_len {s : List Nat} {hd : DxvkStateCacheEntryHeader} {s1 : List Nat}
    (h : entryHeaderFromReader s = .ok (hd, s1)) : s1.length + 4 = s.length := by
  unfold entryHeaderFromReader at h
  split at h
  · exact absurd h (by simp)
  · next v s2 hu8 =>
    split at h
    · exact absurd h (by simp)
    · next v2 s3 hu24 =>
      simp only [Except.ok.injEq, Prod.mk.injEq] at h
      rw [← h.2]
      have l1 := readU8_ok_len hu8
      have l2 := readU24_ok_len hu24
      omega

theorem stdParse_len {s : List Nat} {e : DxvkStateCacheEntry} {rest : List Nat}
    (h : entryFromReaderStandard s = .ok (e, rest)) :
    rest.length + 20 ≤ s.length := by
  unfold entryFromReaderStandard at h
  split at h
  · exact absurd h (by simp)
  · next hd s1 hhd =>
    split at h
    · exact absurd h (by simp)
    · next hsh s2 hx1 =>
      split at h
      · exact absurd h (by simp)
      · next dat s3 hx2 =>
        simp only [Except.ok.injEq, Prod.mk.injEq] at h
        rw [← h.2]
        have l1 := entryHeader_ok_len hhd
        have l2 := readExact_ok_len hx1
        have l3 := readExact_ok_len hx2
        simp only [HASH_SIZE] at l2
        omega

theorem legacyParse_len {n : Nat} {s : List Nat} {e : DxvkStateCacheEntry} {rest : List Nat}
    (h : entryFromReaderLegacy n s = some (.ok (e, rest))) :
    rest.length + 20 ≤ s.length := by
  unfold entryFromReaderLegacy at h
  split at h
  · exact absurd h (by simp)
  · simp only [Option.some.injEq] at h
    split at h
    · exact absurd h (by simp)
    · next dat s1 hx1 =>
      split at h
      · exact absurd h (by simp)
      · next hsh s2 hx2 =>
        simp only [Except.ok.injEq, Prod.mk.injEq] at h
        rw [← h.2]
        have l1 := readExact_ok_len hx1
        have l2 := readExact_ok_len hx2
        simp only [HASH_SIZE] at l2
        omega

/-- A successfully parsed entry consumes at least 20 bytes of the stream. -/
theorem entryFromReader_ok_len {D : List Nat → List Nat} {hdr : DxvkStateCacheHeader}
    {s : List Nat} {e : DxvkStateCacheEntry} {rest : List Nat}
    (h : entryFromReader D hdr s = some (.ok (e, rest))) :
    rest.length + 20 ≤ s.length := by
  unfold entryFromReader at h
  cases hed : hdr.edition with
  | standard =>
    rw [hed] at h
    simp only [Option.map_some', Option.some.injEq] at h
    cases hx : entryFromReaderStandard s with
    | error k => rw [hx] at h; exact absurd h (by simp)
    | ok p =>
      obtain ⟨e1, r1⟩ := p
      rw [hx] at h
      simp only [] at h
      split at h
      · simp only [Except.ok.injEq, Prod.mk.injEq] at h
        rw [← h.2]
        exact stdParse_len hx
      · exact absurd h (by simp)
  | legacy =>
    rw [hed] at h
    cases hx : entryFromReaderLegacy hdr.entry_size s with
    | none => rw [hx] at h; exact absurd h (by simp)
    | some r =>
      rw [hx] at h
      simp only [Option.map_some', Option.some.injEq] at h
      cases r with
      | error k => exact absurd h (by simp)
      | ok p =>
        obtain ⟨e1, r1⟩ := p
        simp only [] at h
        split at h
        · simp only [Except.ok.injEq, Prod.mk.injEq] at h
          rw [← h.2]
          exact legacyParse_len hx
        · exact absurd h (by simp)

/-- One loop step on a successfully parsed, fresh entry. -/
theorem readEntries_step_ok {D : List Nat → List Nat} {hdr : DxvkStateCacheHeader}
    {fuel : Nat} {s : List Nat} {acc : List DxvkStateCacheEntry}
    {e : DxvkStateCacheEntry} {rest : List Nat}
    (hp : entryFromReader D hdr s = some (.ok (e, rest)))
    (hfind : (acc.any fun a => a.hash == e.hash) = false) :
    readEntries D hdr (fuel + 1) s acc = readEntries D hdr fuel rest (acc ++ [e]) := by
  conv_lhs => unfold readEntries
  rw [hp]
  simp only []
  rw [show insertEntry acc e = (acc ++ [e], true) from by simp [insertEntry, hfind]]

/-- One loop step on a successfully parsed entry whose hash is already
present: the loop aborts with DuplicateEntry. -/
theorem readEntries_step_dup {D : List Nat → List Nat} {hdr : DxvkStateCacheHeader}
    {fuel : Nat} {s : List Nat} {acc : List DxvkStateCacheEntry}
    {e : DxvkStateCacheEntry} {rest : List Nat}
    (hp : entryFromReader D hdr s = some (.ok (e, rest)))
    (hfind : (acc.any fun a => a.hash == e.hash) = true) :
    readEntries D hdr (fuel + 1) s acc = some (.error .duplicateEntry) := by
  unfold readEntries
  rw [hp]
  simp only []
  rw [show insertEntry acc e = (acc, false) from by simp [insertEntry, hfind]]

end Dxvk

/-- Claim C6: when the strict decoder (DxvkStateCache::from_reader) parses
a valid entry whose hash equals the hash of an entry already inserted,
decoding aborts with the duplicate-entry error and returns no cache. -/
theorem C6_duplicate_aborts (D : List Nat → List Nat) (s : List Nat)
    (hdr : Dxvk.DxvkStateCacheHeader) (r1 r2 r3 : List Nat)
    (e e2 : Dxvk.DxvkStateCacheEntry)
    (hh : Dxvk.headerFromReader s = .ok (hdr, r1))
    (h1 : Dxvk.entryFromReader D hdr r1 = some (.ok (e, r2)))
    (h2 : Dxvk.entryFromReader D hdr r2 = some (.ok (e2, r3)))
    (hdup : e2.hash = e.hash) :
    Dxvk.cacheFromReader D s = some (.error .duplicateEntry) := by
  have hl1 := Dxvk.entryFromReader_ok_len h1
  unfold Dxvk.cacheFromReader
  rw [hh]
  simp only []
  obtain ⟨m, hm⟩ : ∃ m, r1.length = m + 1 := ⟨r1.length - 1, by omega⟩
  obtain ⟨k, hk⟩ : ∃ k, m = k + 1 := ⟨m - 1, by omega⟩
  rw [hm, hk, Dxvk.readEntries_step_ok h1 (by simp),
    Dxvk.readEntries_step_dup h2 (by simp [hdup])]
  rfl

/-- Entry bytes used by the C6 witness: stage mask 0, payload length 0,
hash of the empty payload. -/
def c6entrybytes : List Nat := [0, 0, 0, 0] ++ Sha1.sha1 []

/-- A standard file containing the same valid entry twice. -/
def c6stream : List Nat :=
  [68, 88, 86, 75] ++ [8, 0, 0, 0] ++ [0, 0, 0, 0] ++ c6entrybytes ++ c6entrybytes

/-- The entry that both halves of the C6 witness stream parse to. -/
def c6entry : Dxvk.DxvkStateCacheEntry :=
  { header := some { stage_mask := 0, entry_size := 0 }, hash := Sha1.sha1 [], data := [] }

/-- Witness for C6 at a concrete stream with a duplicated valid entry. -/
theorem C6_witness :
    Dxvk.cacheFromReader Sha1.sha1 c6stream = some (.error .duplicateEntry) :=
  C6_duplicate_aborts Sha1.sha1 c6stream
    { magic := Dxvk.MAGIC_STRING, version := 8, entry_size := 0 }
    (c6entrybytes ++ c6entrybytes) c6entrybytes [] c6entry c6entry
    (by decide) (by decide) (by decide) rfl

/-! ## C7 -/

/-- Well-formedness of a standard-edition entry as an input to the merge:
a present header with an in-range stage mask, an entry size that equals
the payload length and fits in 24 bits, and a 20-byte hash. Entries
decoded from real files always satisfy this. -/
def wfStdEntry (e : Main.DxvkStateCacheEntry) : Prop :=
  ∃ h, e.header = some h ∧ h.stage_mask < 256 ∧ h.entry_size = e.data.length ∧
    e.data.length < 16777216 ∧ e.hash.length = 20

/-- A standard-edition input file (version 8, file-level entry_size 0)
holding the given entries in order. -/
def stdFileOf (es : List Main.DxvkStateCacheEntry) : List Nat :=
  Main.wrtie_header 8 0 ++ (es.map Main.writeEntryStandard).flatten

namespace Main

theorem readU8_cons (b : Nat) (r : List Nat) : readU8 (b :: r) = .ok (b, r) := by
  simp [readU8, ByteOps.leVal]

theorem readU24_u24le (n : Nat) (r : List Nat) (h : n < 16777216) :
    readU24 (ByteOps.u24le n ++ r) = .ok (n, r) := by
  simp [readU24, ByteOps.u24le, ByteOps.leVal]
  omega

theorem readExact_append (l r : List Nat) :
    readExact l.length (l ++ r) = .ok (l, r) := by
  simp [readExact]

theorem read_entry_nil : read_entry [] = .error ⟨.ioError⟩ := rfl

/-- Parsing an encoded well-formed entry yields it back and leaves the
rest of the stream. -/
theorem read_entry_of_writeEntry {e : Main.DxvkStateCacheEntry} {rest : List Nat}
    (hwf : wfStdEntry e) :
    read_entry (writeEntryStandard e ++ rest) = .ok (e, rest) := by
  obtain ⟨eh, ehash, edata⟩ := e
  obtain ⟨hd, hh, hsm, hsz, hlt, hhl⟩ := hwf
  simp only [] at hh
  subst hh
  have hw : writeEntryStandard ⟨some hd, ehash, edata⟩ ++ rest =
      hd.stage_mask :: (ByteOps.u24le hd.entry_size ++ (ehash ++ (edata ++ rest))) := by
    simp [writeEntryStandard, Nat.mod_eq_of_lt hsm, List.append_assoc]
  rw [hw]
  unfold read_entry
  rw [readU8_cons]
  simp only []
  rw [readU24_u24le _ _ (by simp only [] at hsz hlt ⊢; omega)]
  simp only []
  rw [show readExact HASH_SIZE (ehash ++ (edata ++ rest)) = .ok (ehash, edata ++ rest) from by
    rw [show HASH_SIZE = ehash.length from by simp only [] at hhl; rw [hhl]; rfl]
    exact readExact_append ehash (edata ++ rest)]
  simp only []
  rw [show readExact hd.entry_size (edata ++ rest) = .ok (edata, rest) from by
    rw [show hd.entry_size = edata.length from hsz]
    exact readExact_append edata rest]

/-- At the end of the input, read_entry consumes the zero-padded stage
mask and size but fails with an I/O error on the hash read. -/
theorem entryLoop_nil (D : List Nat → List Nat) (esz fuel : Nat) (m : LinkedMap) :
    entryLoop D false esz (fuel + 1) [] m = some (.ok m) := rfl

/-- The entry loop over a stream of encoded valid entries inserts each of
them in order. -/
theorem entryLoop_writeEntries (D : List Nat → List Nat)
    (es : List Main.DxvkStateCacheEntry) :
    ∀ (fuel : Nat) (m : LinkedMap), es.length < fuel →
      (∀ e ∈ es, wfStdEntry e ∧ is_valid D false e = true) →
      entryLoop D false 0 fuel ((es.map writeEntryStandard).flatten) m =
        some (.ok (es.foldl (fun m e => insertLHM m e.hash e) m)) := by
  induction es with
  | nil =>
    intro fuel m hfuel _
    obtain ⟨f, rfl⟩ : ∃ f, fuel = f + 1 := ⟨fuel - 1, by omega⟩
    simp only [List.map_nil, List.flatten_nil, List.foldl_nil]
    exact entryLoop_nil D 0 f m
  | cons e es ih =>
    intro fuel m hfuel hall
    obtain ⟨f, rfl⟩ : ∃ f, fuel = f + 1 := ⟨fuel - 1, by omega⟩
    obtain ⟨hwf, hval⟩ := hall e (by simp)
    simp only [List.map_cons, List.flatten_cons, List.append_assoc]
    conv_lhs => unfold entryLoop
    simp only [Bool.false_eq_true, if_false]
    rw [show writeEntryStandard e ++ (es.map writeEntryStandard).flatten =
      writeEntryStandard e ++ ((es.map writeEntryStandard).flatten) from rfl]
    rw [read_entry_of_writeEntry hwf]
    simp only [hval, if_true]
    rw [List.foldl_cons]
    exact ih f (insertLHM m e.hash e) (by simp at hfuel ⊢; omega)
      (fun x hx => hall x (by simp [hx]))

/-- Parsing the header of a constructed standard file. -/
theorem read_header_stdFile (es : List Main.DxvkStateCacheEntry) :
    read_header (stdFileOf es) =
      .ok ({ magic := MAGIC_STRING, version := 8, entry_size := 0 },
        (es.map writeEntryStandard).flatten) := by
  unfold stdFileOf wrtie_header
  unfold read_header
  norm_num [readExact, readU32, MAGIC_STRING, ByteOps.u32le, ByteOps.leVal, List.take, List.drop]

/-- A well-formed encoded entry occupies at least one byte. -/
theorem wf_writeEntry_len {e : Main.DxvkStateCacheEntry} (hwf : wfStdEntry e) :
    1 ≤ (writeEntryStandard e).length := by
  obtain ⟨hd, hh, _⟩ := hwf
  simp [writeEntryStandard, hh]

/-- With well-formed entries there are at least as many stream bytes as
entries. -/
theorem length_le_flatten {es : List Main.DxvkStateCacheEntry}
    (hwf : ∀ e ∈ es, wfStdEntry e) :
    es.length ≤ ((es.map writeEntryStandard).flatten).length := by
  induction es with
  | nil => simp
  | cons e es ih =>
    simp only [List.map_cons, List.flatten_cons, List.length_append, List.length_cons]
    have h1 := wf_writeEntry_len (hwf e (by simp))
    have h2 := ih (fun x hx => hwf x (by simp [hx]))
    omega

end Main

/-- Processing one constructed standard file inside the merge loop:
header accepted, version captured or matched, every valid entry folded
into the map with the LinkedHashMap insert. -/
theorem Main.processFile_stdFile (D : List Nat → List Nat)
    (es : List Main.DxvkStateCacheEntry) (version entry_size : Nat) (m : Main.LinkedMap)
    (hv : version = 0 ∨ version = 8)
    (hall : ∀ e ∈ es, wfStdEntry e ∧ Main.is_valid D false e = true) :
    Main.processFile D version entry_size m (stdFileOf es) =
      some (.ok { version := 8,
                  entry_size := if version = 0 then 0 else entry_size,
                  entries := es.foldl (fun m e => Main.insertLHM m e.hash e) m }) := by
  have hloop := Main.entryLoop_writeEntries D es
    (((es.map Main.writeEntryStandard).flatten).length + 1) m
    (by have := Main.length_le_flatten (fun e he => (hall e he).1); omega) hall
  unfold Main.processFile
  rw [Main.read_header_stdFile]
  simp only []
  rw [if_neg (by simp)]
  rcases hv with rfl | rfl
  · simp only [if_pos rfl]
    rw [if_neg (by simp)]
    rw [show decide ((8:Nat) < 8) = false from by decide]
    rw [hloop]
    rfl
  · simp only [if_neg (by omega : ¬(8:Nat) = 0)]
    rw [if_neg (by simp)]
    rw [show decide ((8:Nat) < 8) = false from by decide]
    rw [hloop]
    rfl

/-- Claim C7 as amended: during a merge, an inserted entry whose hash
equals that of an already-present entry replaces the stored entry and the
hash key moves to the most-recently-inserted position (LinkedHashMap
insert refreshes the node). Merging file A with entries X, Y and file B
with entries Y2, Z (where Y2 has the hash of Y) still produces the hash
order X, Y, Z, but the stored middle entry is the occurrence Y2 from B;
merging B then A produces Z, X, Y storing the occurrence from A, not the claimed
Y, Z, X. -/
theorem C7_amended_merge_replaces_and_moves (D : List Nat → List Nat)
    (X Y Y2 Z : Main.DxvkStateCacheEntry)
    (hwX : wfStdEntry X) (hvX : Main.is_valid D false X = true)
    (hwY : wfStdEntry Y) (hvY : Main.is_valid D false Y = true)
    (hwY2 : wfStdEntry Y2) (hvY2 : Main.is_valid D false Y2 = true)
    (hwZ : wfStdEntry Z) (hvZ : Main.is_valid D false Z = true)
    (hxy : X.hash ≠ Y.hash) (hxz : X.hash ≠ Z.hash) (hyz : Y.hash ≠ Z.hash)
    (hdup : Y2.hash = Y.hash) :
    Main.mergeFiles D [stdFileOf [X, Y], stdFileOf [Y2, Z]] =
      some (.ok { version := 8, entry_size := 0,
                  entries := [(X.hash, X), (Y.hash, Y2), (Z.hash, Z)] }) ∧
    Main.mergeFiles D [stdFileOf [Y2, Z], stdFileOf [X, Y]] =
      some (.ok { version := 8, entry_size := 0,
                  entries := [(Z.hash, Z), (X.hash, X), (Y.hash, Y)] }) := by
  have bxy : (X.hash == Y.hash) = false := beq_eq_false_iff_ne.mpr hxy
  have byx : (Y.hash == X.hash) = false := beq_eq_false_iff_ne.mpr (Ne.symm hxy)
  have bxz : (X.hash == Z.hash) = false := beq_eq_false_iff_ne.mpr hxz
  have bzx : (Z.hash == X.hash) = false := beq_eq_false_iff_ne.mpr (Ne.symm hxz)
  have byz : (Y.hash == Z.hash) = false := beq_eq_false_iff_ne.mpr hyz
  have bzy : (Z.hash == Y.hash) = false := beq_eq_false_iff_ne.mpr (Ne.symm hyz)
  have hallA : ∀ e ∈ [X, Y], wfStdEntry e ∧ Main.is_valid D false e = true := by
    intro e he
    simp only [List.mem_cons, List.not_mem_nil, or_false] at he
    rcases he with rfl | rfl
    · exact ⟨hwX, hvX⟩
    · exact ⟨hwY, hvY⟩
  have hallB : ∀ e ∈ [Y2, Z], wfStdEntry e ∧ Main.is_valid D false e = true := by
    intro e he
    simp only [List.mem_cons, List.not_mem_nil, or_false] at he
    rcases he with rfl | rfl
    · exact ⟨hwY2, hvY2⟩
    · exact ⟨hwZ, hvZ⟩
  have fold1 : List.foldl (fun m e => Main.insertLHM m e.hash e) [] [X, Y] =
      [(X.hash, X), (Y.hash, Y)] := by
    simp [Main.insertLHM, bxy]
  have fold2 : List.foldl (fun m e => Main.insertLHM m e.hash e)
      [(X.hash, X), (Y.hash, Y)] [Y2, Z] =
      [(X.hash, X), (Y.hash, Y2), (Z.hash, Z)] := by
    simp [Main.insertLHM, hdup, bxy, bxz, byz]
  have fold3 : List.foldl (fun m e => Main.insertLHM m e.hash e) [] [Y2, Z] =
      [(Y.hash, Y2), (Z.hash, Z)] := by
    simp [Main.insertLHM, hdup, byz]
  have fold4 : List.foldl (fun m e => Main.insertLHM m e.hash e)
      [(Y.hash, Y2), (Z.hash, Z)] [X, Y] =
      [(Z.hash, Z), (X.hash, X), (Y.hash, Y)] := by
    simp [Main.insertLHM, byx, bzx, bxy, bzy]
  have p1 := Main.processFile_stdFile D [X, Y] 0 0 [] (Or.inl rfl) hallA
  have p2 := Main.processFile_stdFile D [Y2, Z] 8 0 [(X.hash, X), (Y.hash, Y)]
    (Or.inr rfl) hallB
  have p3 := Main.processFile_stdFile D [Y2, Z] 0 0 [] (Or.inl rfl) hallB
  have p4 := Main.processFile_stdFile D [X, Y] 8 0 [(Y.hash, Y2), (Z.hash, Z)]
    (Or.inr rfl) hallA
  rw [fold1] at p1
  rw [fold2] at p2
  rw [fold3] at p3
  rw [fold4] at p4
  norm_num at p1 p2 p3 p4
  constructor
  · unfold Main.mergeFiles
    unfold Main.mergeGo
    rw [p1]
    simp only []
    unfold Main.mergeGo
    rw [p2]
    simp only []
    unfold Main.mergeGo
    simp
  · unfold Main.mergeFiles
    unfold Main.mergeGo
    rw [p3]
    simp only []
    unfold Main.mergeGo
    rw [p4]
    simp only []
    unfold Main.mergeGo
    simp

/-- C7 scenario entry X: stage mask 3, payload [0]. -/
def eX : Main.DxvkStateCacheEntry :=
  { header := some { stage_mask := 3, entry_size := 1 }, hash := Sha1.sha1 [0], data := [0] }

/-- C7 scenario entry Y as it appears in file A: stage mask 1, payload [1]. -/
def eY : Main.DxvkStateCacheEntry :=
  { header := some { stage_mask := 1, entry_size := 1 }, hash := Sha1.sha1 [1], data := [1] }

/-- C7 scenario entry Y as it appears in file B: same payload and hash as
eY but stage mask 2, so the two occurrences are observably different. -/
def eY2 : Main.DxvkStateCacheEntry :=
  { header := some { stage_mask := 2, entry_size := 1 }, hash := Sha1.sha1 [1], data := [1] }

/-- C7 scenario entry Z: stage mask 4, payload [2]. -/
def eZ : Main.DxvkStateCacheEntry :=
  { header := some { stage_mask := 4, entry_size := 1 }, hash := Sha1.sha1 [2], data := [2] }

/-- File A of the C7 scenario, holding X then Y. -/
def fileA : List Nat := stdFileOf [eX, eY]

/-- File B of the C7 scenario, holding Y2 then Z. -/
def fileB : List Nat := stdFileOf [eY2, eZ]

/-- Counterexample to claim C7 as stated: merging file B (entries Y2, Z)
and then file A (entries X, Y) produces the hash order Z, X, Y and stores
the occurrence of Y from file A (stage mask 1); the claim (second
occurrence discarded, first position preserved) predicts Y2, Z, X with the
occurrence from B (stage mask 2) at the front, a different map. -/
theorem C7_counterexample_first_occurrence_not_preserved :
    Main.mergeFiles Sha1.sha1 [fileB, fileA] =
      some (.ok { version := 8, entry_size := 0,
                  entries := [(Sha1.sha1 [2], eZ), (Sha1.sha1 [0], eX),
                              (Sha1.sha1 [1], eY)] }) ∧
    ([(Sha1.sha1 [2], eZ), (Sha1.sha1 [0], eX), (Sha1.sha1 [1], eY)] : Main.LinkedMap) ≠
      [(Sha1.sha1 [1], eY2), (Sha1.sha1 [2], eZ), (Sha1.sha1 [0], eX)] := by
  constructor
  · decide
  · decide

/-- Witness for the amended C7 at the concrete scenario entries. -/
theorem C7_witness :
    Main.mergeFiles Sha1.sha1 [fileA, fileB] =
      some (.ok { version := 8, entry_size := 0,
                  entries := [(eX.hash, eX), (eY.hash, eY2), (eZ.hash, eZ)] }) :=
  (C7_amended_merge_replaces_and_moves Sha1.sha1 eX eY eY2 eZ
    ⟨{ stage_mask := 3, entry_size := 1 }, rfl, by decide, by decide, by decide, by decide⟩
    (by decide)
    ⟨{ stage_mask := 1, entry_size := 1 }, rfl, by decide, by decide, by decide, by decide⟩
    (by decide)
    ⟨{ stage_mask := 2, entry_size := 1 }, rfl, by decide, by decide, by decide, by decide⟩
    (by decide)
    ⟨{ stage_mask := 4, entry_size := 1 }, rfl, by decide, by decide, by decide, by decide⟩
    (by decide)
    (by decide) (by decide) (by decide) (by decide)).1

/-! ## C8 -/

/-- Claim C8: with at least 12 bytes available, header decoding fails with
magic-mismatch iff the first four bytes differ from DXVK; fails with
invalid-version iff the magic matches and the following 32-bit word is
zero; and otherwise returns the header holding the read magic, version
and entry_size. -/
theorem C8_header_decode (s : List Nat) (hlen : 12 ≤ s.length) :
    (Dxvk.headerFromReader s = .error .magicStringMismatch ↔
      s.take 4 ≠ Dxvk.MAGIC_STRING) ∧
    (Dxvk.headerFromReader s = .error .invalidVersion ↔
      (s.take 4 = Dxvk.MAGIC_STRING ∧ ByteOps.leVal ((s.drop 4).take 4) = 0)) ∧
    (s.take 4 = Dxvk.MAGIC_STRING → ByteOps.leVal ((s.drop 4).take 4) ≠ 0 →
      Dxvk.headerFromReader s =
        .ok ({ magic := s.take 4, version := ByteOps.leVal ((s.drop 4).take 4),
               entry_size := ByteOps.leVal (((s.drop 4).drop 4).take 4) },
          ((s.drop 4).drop 4).drop 4)) := by
  have e1 : Dxvk.readExact 4 s = .ok (s.take 4, s.drop 4) := by
    simp only [Dxvk.readExact, if_pos (by omega : 4 ≤ s.length)]
  have e2 : Dxvk.readU32 (s.drop 4) =
      .ok (ByteOps.leVal ((s.drop 4).take 4), (s.drop 4).drop 4) := by
    simp only [Dxvk.readU32, Dxvk.readExact,
      if_pos (by simp; omega : 4 ≤ (s.drop 4).length), Except.map]
  have e3 : Dxvk.readU32 ((s.drop 4).drop 4) =
      .ok (ByteOps.leVal (((s.drop 4).drop 4).take 4), ((s.drop 4).drop 4).drop 4) := by
    simp only [Dxvk.readU32, Dxvk.readExact,
      if_pos (by simp; omega : 4 ≤ ((s.drop 4).drop 4).length), Except.map]
  unfold Dxvk.headerFromReader
  rw [e1]
  simp only []
  by_cases hm : s.take 4 = Dxvk.MAGIC_STRING
  · rw [if_neg (by simp [hm])]
    rw [e2]
    simp only []
    by_cases hv : ByteOps.leVal ((s.drop 4).take 4) = 0
    · rw [if_pos hv]
      refine ⟨by simp [hm], by simp [hm, hv], fun _ hv2 => absurd hv hv2⟩
    · rw [if_neg hv]
      rw [e3]
      simp only []
      refine ⟨by simp [hm], by simp [hv], fun _ _ => by trivial⟩
  · rw [if_pos (by simp [hm])]
    refine ⟨by simp [hm], by simp [hm], fun h => absurd h hm⟩

/-- Concrete 12-byte header stream for the C8 witness. -/
def c8stream : List Nat := [68, 88, 86, 75] ++ [9, 0, 0, 0] ++ [44, 0, 0, 0]

/-- Witness for C8: a valid version-9 header decodes to its fields. -/
theorem C8_witness :
    Dxvk.headerFromReader c8stream =
      .ok ({ magic := c8stream.take 4, version := ByteOps.leVal ((c8stream.drop 4).take 4),
             entry_size := ByteOps.leVal (((c8stream.drop 4).drop 4).take 4) },
        ((c8stream.drop 4).drop 4).drop 4) :=
  (C8_header_decode c8stream (by decide)).2.2 (by decide) (by decide)

/-! ## C9 -/

/-- Counterexample to claim C9 as stated: the ReadEx read_u32 of main.rs,
asked for four bytes at the end of the stream, returns the value 0
assembled from the untouched zero-initialised buffer instead of failing
with an unexpected-EOF condition. -/
theorem C9_counterexample_readex_returns_value :
    Main.readU32 [] = .ok (0, []) := by decide

namespace Dxvk

theorem readExact_eof_iff (n : Nat) (t : List Nat) :
    readExact n t = .error .unexpectedEof ↔ t.length < n := by
  unfold readExact
  by_cases h : n ≤ t.length
  · rw [if_pos h]
    constructor
    · intro hc
      exact absurd hc (by simp)
    · intro hc
      omega
  · rw [if_neg h]
    constructor
    · intro _
      omega
    · intro _
      rfl

theorem readExact_error_eof {n : Nat} {t : List Nat} {k : IoErrorKind}
    (h : readExact n t = .error k) : k = .unexpectedEof := by
  unfold readExact at h
  split at h
  · exact absurd h (by simp)
  · simp only [Except.error.injEq] at h
    exact h.symm

theorem mapLe_error_iff {n : Nat} {t : List Nat} {k : IoErrorKind} :
    (readExact n t).map (fun p => (ByteOps.leVal p.1, p.2)) = .error k ↔
      readExact n t = .error k := by
  cases hx : readExact n t <;> simp [Except.map]

theorem readU8_eof_iff (t : List Nat) : readU8 t = .error .unexpectedEof ↔ t.length < 1 := by
  rw [show readU8 t = (readExact 1 t).map (fun p => (ByteOps.leVal p.1, p.2)) from rfl,
    mapLe_error_iff]
  exact readExact_eof_iff 1 t

theorem readU24_eof_iff (t : List Nat) : readU24 t = .error .unexpectedEof ↔ t.length < 3 := by
  rw [show readU24 t = (readExact 3 t).map (fun p => (ByteOps.leVal p.1, p.2)) from rfl,
    mapLe_error_iff]
  exact readExact_eof_iff 3 t

theorem readU32_eof_iff (t : List Nat) : readU32 t = .error .unexpectedEof ↔ t.length < 4 := by
  rw [show readU32 t = (readExact 4 t).map (fun p => (ByteOps.leVal p.1, p.2)) from rfl,
    mapLe_error_iff]
  exact readExact_eof_iff 4 t

theorem readU8_error_eof {t : List Nat} {k : IoErrorKind} (h : readU8 t = .error k) :
    k = .unexpectedEof :=
  readExact_error_eof (mapLe_error_iff.mp h)

theorem readU24_error_eof {t : List Nat} {k : IoErrorKind} (h : readU24 t = .error k) :
    k = .unexpectedEof :=
  readExact_error_eof (mapLe_error_iff.mp h)

theorem readU32_error_eof {t : List Nat} {k : IoErrorKind} (h : readU32 t = .error k) :
    k = .unexpectedEof :=
  readExact_error_eof (mapLe_error_iff.mp h)

theorem entryHeaderFromReader_eof_iff (t : List Nat) :
    entryHeaderFromReader t = .error .unexpectedEof ↔ t.length < 4 := by
  unfold entryHeaderFromReader
  cases h8 : readU8 t with
  | error k =>
    have hk := readU8_error_eof h8
    subst hk
    have hlen := (readU8_eof_iff t).mp h8
    simp only []
    constructor
    · intro _
      omega
    · intro _
      trivial
  | ok p =>
    obtain ⟨v, s1⟩ := p
    have hlen1 : s1.length + 1 = t.length := readU8_ok_len h8
    simp only []
    cases h24 : readU24 s1 with
    | error k =>
      have hk := readU24_error_eof h24
      subst hk
      have hlen := (readU24_eof_iff s1).mp h24
      simp only []
      constructor
      · intro _
        omega
      · intro _
        trivial
    | ok q =>
      obtain ⟨w, s2⟩ := q
      have hlen2 : s2.length + 3 = s1.length := readU24_ok_len h24
      simp only []
      constructor
      · intro hc
        exact absurd hc (by simp)
      · intro hc
        omega

end Dxvk

/-- Claim C9 as amended: the byteorder-based primitives used by dxvk.rs
(and the entry-header reader built from them) fail exactly when the
stream holds fewer bytes than requested, and the failure kind is
unexpected-EOF, distinguishable from any other I/O failure; the ReadEx
primitives of main.rs never fail and return a zero-padded little-endian
value assembled from whatever bytes remain. -/
theorem C9_amended_read_primitives (s : List Nat) :
    (Dxvk.readU8 s = .error .unexpectedEof ↔ s.length < 1) ∧
    (Dxvk.readU24 s = .error .unexpectedEof ↔ s.length < 3) ∧
    (Dxvk.readU32 s = .error .unexpectedEof ↔ s.length < 4) ∧
    (Dxvk.entryHeaderFromReader s = .error .unexpectedEof ↔ s.length < 4) ∧
    (∀ k, Dxvk.readU8 s = .error k → k = .unexpectedEof) ∧
    (∀ k, Dxvk.readU24 s = .error k → k = .unexpectedEof) ∧
    (∀ k, Dxvk.readU32 s = .error k → k = .unexpectedEof) ∧
    Main.readU8 s = .ok (ByteOps.leVal (s.take 1), s.drop 1) ∧
    Main.readU24 s = .ok (ByteOps.leVal (s.take 3), s.drop 3) ∧
    Main.readU32 s = .ok (ByteOps.leVal (s.take 4), s.drop 4) :=
  ⟨Dxvk.readU8_eof_iff s, Dxvk.readU24_eof_iff s, Dxvk.readU32_eof_iff s,
    Dxvk.entryHeaderFromReader_eof_iff s,
    fun _ h => Dxvk.readU8_error_eof h, fun _ h => Dxvk.readU24_error_eof h,
    fun _ h => Dxvk.readU32_error_eof h, rfl, rfl, rfl⟩

/-! ## C10 -/

namespace Dxvk

theorem readExact_split (l r : List Nat) :
    readExact l.length (l ++ r) = .ok (l, r) := by
  simp [readExact]

theorem readU32_of_u32le (n : Nat) (r : List Nat) (h : n < 4294967296) :
    readU32 (ByteOps.u32le n ++ r) = .ok (n, r) := by
  simp [readU32, readExact, ByteOps.u32le, ByteOps.leVal, Except.map]
  omega

/-- Parsing a header stream made of the magic, a nonzero version and an
entry_size, followed by the body. -/
theorem headerFromReader_parts (v es : Nat) (body : List Nat)
    (hv32 : v < 4294967296) (hv0 : v ≠ 0) (hes : es < 4294967296) :
    headerFromReader (MAGIC_STRING ++ ByteOps.u32le v ++ ByteOps.u32le es ++ body) =
      .ok ({ magic := MAGIC_STRING, version := v, entry_size := es }, body) := by
  unfold headerFromReader
  simp only [List.append_assoc]
  rw [show readExact 4 (MAGIC_STRING ++ (ByteOps.u32le v ++ (ByteOps.u32le es ++ body))) =
      .ok (MAGIC_STRING, ByteOps.u32le v ++ (ByteOps.u32le es ++ body)) from by
    rw [show (4 : Nat) = MAGIC_STRING.length from rfl]
    exact readExact_split _ _]
  simp only []
  rw [if_neg (by simp)]
  rw [readU32_of_u32le v _ hv32]
  simp only []
  rw [if_neg hv0]
  rw [readU32_of_u32le es _ hes]

end Dxvk

namespace Main

theorem readU32_u32le (n : Nat) (r : List Nat) (h : n < 4294967296) :
    readU32 (ByteOps.u32le n ++ r) = .ok (n, r) := by
  simp [readU32, ByteOps.u32le, ByteOps.leVal]
  omega

/-- Parsing a header stream made of the magic, a version and an
entry_size, followed by the body (main.rs validates nothing here). -/
theorem read_header_parts (v es : Nat) (body : List Nat)
    (hv : v < 4294967296) (he : es < 4294967296) :
    read_header (MAGIC_STRING ++ ByteOps.u32le v ++ ByteOps.u32le es ++ body) =
      .ok ({ magic := MAGIC_STRING, version := v, entry_size := es }, body) := by
  unfold read_header
  simp only [List.append_assoc]
  rw [show readExact 4 (MAGIC_STRING ++ (ByteOps.u32le v ++ (ByteOps.u32le es ++ body))) =
      .ok (MAGIC_STRING, ByteOps.u32le v ++ (ByteOps.u32le es ++ body)) from by
    rw [show (4 : Nat) = MAGIC_STRING.length from rfl]
    exact readExact_append _ _]
  simp only []
  rw [readU32_u32le v _ hv]
  simp only []
  rw [readU32_u32le es _ he]

end Main

/-- Claim C10: decoding a legacy entry when the file header entry_size is
below HASH_SIZE (20) panics: the data-buffer size entry_size - HASH_SIZE
underflows on usize (modelled as `none`), so the entry decoder neither
returns an entry nor a handled error; the same underflow panics the
whole-cache decoder of dxvk.rs and the merge loop of main.rs before
anything is read. -/
theorem C10_legacy_small_entry_size_panics (D : List Nat → List Nat)
    (hdr : Dxvk.DxvkStateCacheHeader) (s body : List Nat) (v es : Nat)
    (hed : hdr.edition = .legacy) (hsz : hdr.entry_size < Dxvk.HASH_SIZE)
    (hv1 : 1 ≤ v) (hv7 : v ≤ 7) (hes : es < 20) :
    Dxvk.entryFromReader D hdr s = none ∧
    Dxvk.cacheFromReader D
      (Dxvk.MAGIC_STRING ++ ByteOps.u32le v ++ ByteOps.u32le es ++ body) = none ∧
    Main.mergeFiles D
      [Main.MAGIC_STRING ++ ByteOps.u32le v ++ ByteOps.u32le es ++ body] = none := by
  have hpanic : ∀ (h2 : Dxvk.DxvkStateCacheHeader) (t : List Nat), h2.edition = .legacy →
      h2.entry_size < Dxvk.HASH_SIZE → Dxvk.entryFromReader D h2 t = none := by
    intro h2 t he2 hs2
    unfold Dxvk.entryFromReader
    rw [he2]
    simp only []
    rw [show Dxvk.entryFromReaderLegacy h2.entry_size t = none from by
      unfold Dxvk.entryFromReaderLegacy
      rw [if_pos hs2]]
    rfl
  have hed2 : ({ magic := Dxvk.MAGIC_STRING, version := v, entry_size := es } :
      Dxvk.DxvkStateCacheHeader).edition = .legacy := by
    unfold Dxvk.DxvkStateCacheHeader.edition
    rw [if_neg (by simp only [Dxvk.LEGACY_VERSION]; omega)]
  refine ⟨hpanic hdr s hed hsz, ?_, ?_⟩
  · unfold Dxvk.cacheFromReader
    rw [Dxvk.headerFromReader_parts v es body (by omega) (by omega) (by omega)]
    simp only []
    rw [show Dxvk.readEntries D { magic := Dxvk.MAGIC_STRING, version := v, entry_size := es }
        (body.length + 1) body [] = none from by
      unfold Dxvk.readEntries
      rw [hpanic _ body hed2 (by simp only [Dxvk.HASH_SIZE]; omega)]]
    rfl
  · unfold Main.mergeFiles
    unfold Main.mergeGo
    unfold Main.processFile
    rw [Main.read_header_parts v es body (by omega) (by omega)]
    simp only []
    rw [if_neg (by simp)]
    rw [if_neg (by simp)]
    rw [show decide (v < 8) = true from decide_eq_true (by omega)]
    rw [show Main.entryLoop D true es (body.length + 1) body [] = none from by
      conv_lhs => unfold Main.entryLoop
      simp [Main.HASH_SIZE, hes]]
    rfl

/-- Witness for C10 at version 7 and entry_size 19. -/
theorem C10_witness :
    Dxvk.entryFromReader Sha1.sha1
        { magic := Dxvk.MAGIC_STRING, version := 7, entry_size := 19 } [] = none ∧
    Dxvk.cacheFromReader Sha1.sha1
      (Dxvk.MAGIC_STRING ++ ByteOps.u32le 7 ++ ByteOps.u32le 19 ++ []) = none ∧
    Main.mergeFiles Sha1.sha1
      [Main.MAGIC_STRING ++ ByteOps.u32le 7 ++ ByteOps.u32le 19 ++ []] = none :=
  C10_legacy_small_entry_size_panics Sha1.sha1
    { magic := Dxvk.MAGIC_STRING, version := 7, entry_size := 19 } [] [] 7 19
    (by decide) (by decide) (by decide) (by decide) (by decide)
